import Mathlib

/-!
Verification of the go-callgraph-neo4j collector core.

The Go source (Collector in the analyzer file, plus main.go) is embedded
shallowly: Go strings become Lean `String`, Go maps become association
lists with Go-map lookup/assignment semantics, the SSA/VTA edge visitor
becomes a fold over an explicit edge list, and `go/types` data (method
sets, receivers, scope entries) becomes explicit structure fields.
-/

set_option maxHeartbeats 1000000

namespace GoCallGraph

/-! ## String helpers (models of the `strings` package functions used) -/

/-- Model of the prefix test underlying Go strings.HasPrefix, on char lists. -/
def isPrefixL : List Char → List Char → Bool
  | [], _ => true
  | _ :: _, [] => false
  | a :: as, b :: bs => a = b && isPrefixL as bs

/-- Model of Go strings.Index: index of the first occurrence of ndl in hay,
scanning left to right (auxiliary, carries the current index). -/
def idxOfAux (ndl : List Char) : List Char → Nat → Option Nat
  | [], i => if isPrefixL ndl [] then some i else none
  | h :: t, i => if isPrefixL ndl (h :: t) then some i else idxOfAux ndl t (i + 1)

/-- Model of Go strings.Index restricted to "found at which index". -/
def idxOf (hay ndl : List Char) : Option Nat :=
  idxOfAux ndl hay 0

/-! ## Collector entity records (from the node/edge struct definitions) -/

/-- FuncNode from the source: a Go function or method record. -/
structure FuncNode where
  name : String
  fullName : String
  package : String
  file : String
  line : Nat
  exported : Bool
  receiver : String
  isMethod : Bool
deriving Repr, DecidableEq

/-- CallEdge from the source: a call relationship between two functions. -/
structure CallEdge where
  callerFullName : String
  calleeFullName : String
  isDynamic : Bool
  site : String
deriving Repr, DecidableEq

/-- ImplementsEdge from the source: a struct implementing an interface. -/
structure ImplementsEdge where
  struct : String
  iface : String
deriving Repr, DecidableEq

/-! ## Go maps as association lists (Go-map assignment and lookup) -/

/-- Lookup in a Go map modelled as an association list. -/
def lookupA {α : Type} : List (String × α) → String → Option α
  | [], _ => none
  | (k, v) :: t, key => if k = key then some v else lookupA t key

/-- Go map assignment m[key] = val: replace the binding if present, else add it. -/
def insertA {α : Type} : List (String × α) → String → α → List (String × α)
  | [], key, val => [(key, val)]
  | (k, v) :: t, key, val =>
    if k = key then (key, val) :: t else (k, v) :: insertA t key val

/-- The keys of a modelled Go map are pairwise distinct. -/
def keysNodup {α : Type} (m : List (String × α)) : Prop :=
  (m.map Prod.fst).Nodup

/-! ## Collector.isProjectPackage and Collector.relPath (from the source) -/

/-- Collector.isProjectPackage: strings.HasPrefix(pkgPath, c.RootModule). -/
def isProjectPackage (rootModule pkgPath : String) : Bool :=
  isPrefixL rootModule.data pkgPath.data

/-- Collector.relPath on char lists: find the first occurrence of the module
path, drop everything up to and including it, and drop one leading slash. -/
def relPathL (rootModule fullPath : List Char) : List Char :=
  match idxOf fullPath rootModule with
  | some i =>
    let rest := fullPath.drop (i + rootModule.length)
    match rest with
    | c :: t => if c = '/' then t else c :: t
    | [] => []
  | none => fullPath

/-- Collector.relPath: strips the module prefix from a full file or package
path when the module path occurs in it; otherwise returns the path unchanged. -/
def relPath (rootModule fullPath : String) : String :=
  ⟨relPathL rootModule.data fullPath.data⟩

/-! ## Receiver types and the two naming computations -/

/-- The fragment of go/types type shapes the naming code inspects:
a named type, a pointer to a type, or anything else. -/
inductive GoType where
  | named (n : String)
  | ptr (elem : GoType)
  | other
deriving Repr, DecidableEq

/-- CollectTypes, first pass (the *types.Func case): FullName starts as
pkgPath + "." + name; if the signature has a receiver, one level of pointer
indirection is stripped and, when the receiver is a named type, the full
name becomes pkgPath + "." + receiverName + "." + name. -/
def collectTypesFuncName (pkgPath name : String) (recv : Option GoType) : String :=
  match recv with
  | none => pkgPath ++ "." ++ name
  | some recvType =>
    let rt := match recvType with
      | GoType.ptr e => e
      | t => t
    match rt with
    | GoType.named rn => pkgPath ++ "." ++ rn ++ "." ++ name
    | _ => pkgPath ++ "." ++ name

/-- CollectTypes, second pass (methods read off a named type's method list):
FullName = pkgPath + "." + typeName + "." + methodName. -/
def collectTypesMethodName (pkgPath typeName methodName : String) : String :=
  pkgPath ++ "." ++ typeName ++ "." ++ methodName

/-- The data of an ssa.Function that buildSSAFuncName and the edge visitor
consult: its package path (none models fn.Pkg == nil), its Name(), its
receiver, whether fn.Object() is present and exported, and fn.String()
(the fallback used when fn.Pkg is nil). -/
structure SSAFunc where
  pkg : Option String
  fname : String
  recv : Option GoType
  objExported : Option Bool
  fnString : String
deriving Repr, DecidableEq

/-- buildSSAFuncName from the source: fn.String() when the package is nil;
otherwise strip one pointer from the receiver and use the named receiver
name when there is one, else just pkgPath + "." + name. -/
def buildSSAFuncName (fn : SSAFunc) : String :=
  match fn.pkg with
  | none => fn.fnString
  | some pkgPath =>
    match fn.recv with
    | some recvType =>
      let rt := match recvType with
        | GoType.ptr e => e
        | t => t
      match rt with
      | GoType.named rn => pkgPath ++ "." ++ rn ++ "." ++ fn.fname
      | _ => pkgPath ++ "." ++ fn.fname
    | none => pkgPath ++ "." ++ fn.fname

/-! ## Collector.CollectCallGraph: the edge visitor (from the source) -/

/-- The data of a callgraph edge's call site: position filename and line,
the invoke-mode flag (interface dispatch), and the column (present in the
position but unused by the visitor). -/
structure SiteInfo where
  filename : String
  line : Nat
  isInvoke : Bool
  col : Nat
deriving Repr, DecidableEq

/-- A callgraph.Edge as the visitor consumes it: caller and callee SSA
functions and an optional call site (nil for synthetic edges). -/
structure CGEdge where
  caller : SSAFunc
  callee : SSAFunc
  site : Option SiteInfo
deriving Repr, DecidableEq

/-- The collector state the call-graph pass reads and writes: the Funcs
map and the Calls slice. -/
structure CGState where
  funcs : List (String × FuncNode)
  calls : List CallEdge
deriving Repr, DecidableEq

/-- The body of the GraphVisitEdges callback in CollectCallGraph: skip
edges with a nil caller or callee package, skip edges with no in-project
endpoint, append one CallEdge (is_dynamic = site non-nil and invoke mode,
site = relPath(filename):line or empty), then register the caller and the
callee as minimal FuncNodes when in-project and not already present. -/
def processEdge (rootModule : String) (st : CGState) (e : CGEdge) : CGState :=
  match e.caller.pkg, e.callee.pkg with
  | some callerPkg, some calleePkg =>
    if !isProjectPackage rootModule callerPkg && !isProjectPackage rootModule calleePkg then
      st
    else
      let callerName := buildSSAFuncName e.caller
      let calleeName := buildSSAFuncName e.callee
      let site := match e.site with
        | some s => relPath rootModule s.filename ++ ":" ++ toString s.line
        | none => ""
      let isDyn := match e.site with
        | some s => s.isInvoke
        | none => false
      let st1 : CGState :=
        { st with calls := st.calls ++ [⟨callerName, calleeName, isDyn, site⟩] }
      let callerNode : FuncNode :=
        ⟨e.caller.fname, callerName, callerPkg, "", 0, e.caller.objExported.getD false, "", false⟩
      let calleeNode : FuncNode :=
        ⟨e.callee.fname, calleeName, calleePkg, "", 0, e.callee.objExported.getD false, "", false⟩
      let st2 : CGState :=
        if (lookupA st1.funcs callerName).isNone && isProjectPackage rootModule callerPkg then
          { st1 with funcs := insertA st1.funcs callerName callerNode }
        else st1
      let st3 : CGState :=
        if (lookupA st2.funcs calleeName).isNone && isProjectPackage rootModule calleePkg then
          { st2 with funcs := insertA st2.funcs calleeName calleeNode }
        else st2
      st3
  | _, _ => st

/-- Collector.CollectCallGraph: visit every callgraph edge in order,
threading the Funcs map and Calls slice through the visitor body. -/
def CollectCallGraph (rootModule : String) (st : CGState) (edges : List CGEdge) : CGState :=
  edges.foldl (processEdge rootModule) st

/-! ## Collector.CollectImplementsFromPackages (from the source) -/

/-- The underlying kind of a package-scope named type, with the method-set
data the implements check consults: for a struct, the method set of T and
of *T; for an interface, its full method list. Method identity strings
stand for name-plus-signature. -/
inductive Underlying where
  | structU (valueMethods ptrMethods : List String)
  | ifaceU (methods : List String)
  | otherU
deriving Repr, DecidableEq

/-- A package-scope type declaration as the gathering loop sees it. -/
structure TypeDef where
  name : String
  u : Underlying
deriving Repr, DecidableEq

/-- A loaded package: its import path and its package-scope named types. -/
structure PkgInfo where
  pkgPath : String
  typeDefs : List TypeDef
deriving Repr, DecidableEq

/-- An interface entry gathered by CollectImplementsFromPackages. -/
structure IfaceEntry where
  key : String
  methods : List String
  tname : String
  pkg : String
deriving Repr, DecidableEq

/-- A concrete (struct) entry gathered by CollectImplementsFromPackages. -/
structure ConcreteEntry where
  key : String
  valueMethods : List String
  ptrMethods : List String
  tname : String
  pkg : String
deriving Repr, DecidableEq

/-- The interface case of the gathering loop for one scope entry: only
interfaces with NumMethods() > 0 are collected (empty interfaces skipped). -/
def ifaceEntryOf (pkgPath : String) (t : TypeDef) : Option IfaceEntry :=
  match t.u with
  | Underlying.ifaceU ms =>
    if 0 < ms.length then some ⟨pkgPath ++ "." ++ t.name, ms, t.name, pkgPath⟩ else none
  | _ => none

/-- The struct case of the gathering loop for one scope entry. -/
def concreteEntryOf (pkgPath : String) (t : TypeDef) : Option ConcreteEntry :=
  match t.u with
  | Underlying.structU vms pms =>
    some ⟨pkgPath ++ "." ++ t.name, vms, pms, t.name, pkgPath⟩
  | _ => none

/-- The gathering loop's interface side: in-project packages only. -/
def gatherIfaces (rootModule : String) (pkgs : List PkgInfo) : List IfaceEntry :=
  pkgs.foldl (fun acc p =>
    if isProjectPackage rootModule p.pkgPath then
      acc ++ p.typeDefs.filterMap (ifaceEntryOf p.pkgPath)
    else acc) []

/-- The gathering loop's struct side: in-project packages only, every
package-scope struct type. -/
def gatherConcretes (rootModule : String) (pkgs : List PkgInfo) : List ConcreteEntry :=
  pkgs.foldl (fun acc p =>
    if isProjectPackage rootModule p.pkgPath then
      acc ++ p.typeDefs.filterMap (concreteEntryOf p.pkgPath)
    else acc) []

/-- Model of types.Implements: the method set covers every interface method. -/
def typesImplements (methodSet ifaceMethods : List String) : Bool :=
  ifaceMethods.all (fun m => methodSet.contains m)

/-- The accumulating state of the implements double loop: the edges emitted
so far and the seen set of edge keys. -/
structure ImplState where
  edges : List ImplementsEdge
  seen : List String
deriving Repr, DecidableEq

/-- The body of the implements double loop for one (concrete, interface)
pair: skip if the edge key was seen; otherwise test T against the interface
and then *T, emitting at most one edge and marking the key seen. -/
def implPairStep (st : ImplState) (ci : ConcreteEntry × IfaceEntry) : ImplState :=
  let c := ci.1
  let i := ci.2
  let edgeKey := c.key ++ "->" ++ i.key
  if st.seen.contains edgeKey then st
  else if typesImplements c.valueMethods i.methods then
    ⟨st.edges ++ [⟨c.key, i.key⟩], st.seen ++ [edgeKey]⟩
  else if typesImplements c.ptrMethods i.methods then
    ⟨st.edges ++ [⟨c.key, i.key⟩], st.seen ++ [edgeKey]⟩
  else st

/-- Collector.CollectImplementsFromPackages: gather project interfaces
(non-empty only) and structs, then run the double loop with the seen set. -/
def CollectImplementsFromPackages (rootModule : String) (pkgs : List PkgInfo) : List ImplementsEdge :=
  let ifaces := gatherIfaces rootModule pkgs
  let concretes := gatherConcretes rootModule pkgs
  (concretes.foldl (fun st c =>
    ifaces.foldl (fun st2 i => implPairStep st2 (c, i)) st) ⟨[], []⟩).edges

/-! ## Type-flow propagation (spec-modelled, section 4.2 of the spec) -/

/-- Modelled from the spec: the call-graph construction delegates dynamic
dispatch to vta.CallGraph from golang.org/x/tools, whose code is not part
of this repository. Per the spec, the analysis builds "a directed flow
graph whose nodes are program values that can carry an interface-typed
value" with edges encoding may-flow-to relations, plus the concrete types
originating at nodes (allocations reaching a value). -/
structure FlowGraph where
  flowEdges : List (Nat × Nat)
  origins : List (Nat × String)

/-- Modelled from the spec: record one (node, type) fact, as an idempotent
set-union insert. -/
def addType (acc : List (Nat × String)) (nt : Nat × String) : List (Nat × String) :=
  if acc.contains nt then acc else acc ++ [nt]

/-- Modelled from the spec: the concrete types an assignment records at a
node. -/
def typesFrom (asn : List (Nat × String)) (n : Nat) : List String :=
  asn.filterMap (fun p => if p.1 = n then some p.2 else none)

/-- Modelled from the spec: push every type recorded at the edge's source
node to its target node. -/
def propagateEdge (asn acc : List (Nat × String)) (e : Nat × Nat) : List (Nat × String) :=
  (typesFrom asn e.1).foldl (fun acc2 t => addType acc2 (e.2, t)) acc

/-- Modelled from the spec: one round of propagation — for every flow edge
(a, b), every concrete type recorded at a is added at b (set union). -/
def propagateStep (g : FlowGraph) (asn : List (Nat × String)) : List (Nat × String) :=
  g.flowEdges.foldl (propagateEdge asn) asn

/-- Modelled from the spec: the propagation iterated from the origins; fuel
bounds the number of rounds run towards the fixpoint. -/
def propagateN (g : FlowGraph) : Nat → List (Nat × String)
  | 0 => g.origins
  | k + 1 => propagateStep g (propagateN g k)

/-- Modelled from the spec: the set of concrete types propagated to a node
after the given number of rounds. -/
def typesAt (g : FlowGraph) (fuel : Nat) (n : Nat) : List String :=
  typesFrom (propagateN g fuel) n

/-- Modelled from the spec: resolution of a dynamic call site with receiver
node r — "the candidate callee set is every method M such that some
concrete type T in R's propagated set provides M". The provides table maps
a concrete type name to the key of its method implementing the called
method. -/
def dynamicCallees (g : FlowGraph) (fuel : Nat) (r : Nat)
    (provides : List (String × String)) : List String :=
  provides.filterMap (fun q =>
    if (typesAt g fuel r).contains q.1 then some q.2 else none)

/-- May-flow-to reachability in at most `k` steps along the flow edges,
with the final edge applied last. -/
inductive FlowsWithin (g : FlowGraph) : Nat → Nat → Nat → Prop where
  | done (k a : Nat) : FlowsWithin g k a a
  | snoc {k a c b : Nat} : FlowsWithin g k a c → (c, b) ∈ g.flowEdges →
      FlowsWithin g (k + 1) a b

/-! ## main.go: the run sequencing (from the source) -/

/-- The parsed command-line flags of main.go. -/
structure CLIConfig where
  neo4jURI : String
  neo4jUser : String
  neo4jPass : String
  clean : Bool
  dir : String
deriving Repr, DecidableEq

/-- The outcomes of the external collaborators main.go calls, in call
order: filepath.Abs, detectModulePath, packages.Load, NewNeo4jLoader, and
the sink operations (CleanGraph, CreateIndexes, then the six Load* batch
writes). A false entry models the call returning an error. -/
structure ExternalEnv where
  absDirOk : Bool
  modulePathOk : Bool
  loadOk : Bool
  connectOk : Bool
  cleanOk : Bool
  indexOk : Bool
  loadPackagesOk : Bool
  loadStructsOk : Bool
  loadInterfacesOk : Bool
  loadFuncsOk : Bool
  loadCallsOk : Bool
  loadImplementsOk : Bool
deriving Repr, DecidableEq

/-- What a run of main performed: the exit code (0 = normal return,
1 = os.Exit(1) or log.Fatal), whether packages.Load was reached, whether
each collection stage ran, and how many sink mutations succeeded. -/
structure RunTrace where
  exitCode : Nat
  packagesLoadAttempted : Bool
  typesCollected : Bool
  callGraphCollected : Bool
  implementsCollected : Bool
  sinkWrites : Nat
deriving Repr, DecidableEq

/-- The trace of a run that dies before doing anything. -/
def deadTrace : RunTrace :=
  ⟨1, false, false, false, false, 0⟩

/-- main.go's sequencing: flag validation (missing --neo4j-pass exits 1
before anything else), path and module resolution, package loading, the
three collection stages, then the sink operations, any failure of which is
fatal (log.Fatal). Sink mutations are counted as they succeed. -/
def mainRun (cfg : CLIConfig) (env : ExternalEnv) : RunTrace :=
  if cfg.neo4jPass = "" then deadTrace
  else if !env.absDirOk then deadTrace
  else if !env.modulePathOk then deadTrace
  else if !env.loadOk then { deadTrace with packagesLoadAttempted := true }
  else
    let base : RunTrace :=
      { exitCode := 0, packagesLoadAttempted := true, typesCollected := true,
        callGraphCollected := true, implementsCollected := true, sinkWrites := 0 }
    if !env.connectOk then { base with exitCode := 1 }
    else if cfg.clean && !env.cleanOk then { base with exitCode := 1 }
    else
      let afterClean := if cfg.clean then { base with sinkWrites := base.sinkWrites + 1 } else base
      if !env.indexOk then { afterClean with exitCode := 1 }
      else
        let t1 := { afterClean with sinkWrites := afterClean.sinkWrites + 1 }
        if !env.loadPackagesOk then { t1 with exitCode := 1 }
        else
          let t2 := { t1 with sinkWrites := t1.sinkWrites + 1 }
          if !env.loadStructsOk then { t2 with exitCode := 1 }
          else
            let t3 := { t2 with sinkWrites := t2.sinkWrites + 1 }
            if !env.loadInterfacesOk then { t3 with exitCode := 1 }
            else
              let t4 := { t3 with sinkWrites := t3.sinkWrites + 1 }
              if !env.loadFuncsOk then { t4 with exitCode := 1 }
              else
                let t5 := { t4 with sinkWrites := t4.sinkWrites + 1 }
                if !env.loadCallsOk then { t5 with exitCode := 1 }
                else
                  let t6 := { t5 with sinkWrites := t5.sinkWrites + 1 }
                  if !env.loadImplementsOk then { t6 with exitCode := 1 }
                  else { t6 with sinkWrites := t6.sinkWrites + 1 }

/-! ## Helper lemmas about the map model -/

theorem lookupA_insertA_self {α : Type} (m : List (String × α)) (k : String) (v : α) :
    lookupA (insertA m k v) k = some v := by
  induction m with
  | nil => simp [insertA, lookupA]
  | cons hd t ih =>
    obtain ⟨k0, v0⟩ := hd
    by_cases hk : k0 = k
    · simp [insertA, hk, lookupA]
    · simp [insertA, hk, lookupA, ih]

theorem lookupA_insertA_ne {α : Type} (m : List (String × α)) (k k' : String) (v : α)
    (h : k' ≠ k) : lookupA (insertA m k' v) k = lookupA m k := by
  induction m with
  | nil => simp [insertA, lookupA, h]
  | cons hd t ih =>
    obtain ⟨k0, v0⟩ := hd
    by_cases hk : k0 = k'
    · subst hk
      simp [insertA, lookupA, h]
    · simp only [insertA, if_neg hk]
      by_cases hk2 : k0 = k
      · simp [lookupA, hk2]
      · simp [lookupA, hk2, ih]

theorem mem_keys_insertA {α : Type} (m : List (String × α)) (k : String) (v : α)
    (x : String) (h : x ∈ (insertA m k v).map Prod.fst) :
    x ∈ m.map Prod.fst ∨ x = k := by
  induction m with
  | nil => simp [insertA] at h; right; exact h
  | cons hd t ih =>
    obtain ⟨k0, v0⟩ := hd
    by_cases hk : k0 = k
    · subst hk
      simp [insertA] at h
      rcases h with h | h
      · right; exact h
      · left; simp [h]
    · simp only [insertA, if_neg hk, List.map_cons, List.mem_cons] at h
      rcases h with h | h
      · left; simp [h]
      · rcases ih h with h2 | h2
        · left; simp [h2]
        · right; exact h2

theorem keysNodup_insertA {α : Type} (m : List (String × α)) (k : String) (v : α)
    (h : keysNodup m) : keysNodup (insertA m k v) := by
  induction m with
  | nil => simp [insertA, keysNodup]
  | cons hd t ih =>
    obtain ⟨k0, v0⟩ := hd
    unfold keysNodup at h
    simp only [List.map_cons, List.nodup_cons] at h
    by_cases hk : k0 = k
    · subst hk
      unfold keysNodup
      simpa [insertA] using h
    · unfold keysNodup
      simp only [insertA, if_neg hk, List.map_cons, List.nodup_cons]
      refine ⟨?_, ih h.2⟩
      intro hmem
      rcases mem_keys_insertA t k v k0 hmem with h2 | h2
      · exact h.1 h2
      · exact hk h2

/-! ## Claim C2 -/

/-- Claim C2: for every function or method, the fully-qualified key computed
by the entity-extraction pass (both the declaration scan and the method-set
scan) equals the key computed by buildSSAFuncName during call-graph
construction, and writing a record at an existing key never duplicates a
map entry. -/
theorem c2_claim :
    (∀ (pkgPath n : String) (recv : Option GoType) (oe : Option Bool) (fs : String),
      collectTypesFuncName pkgPath n recv
        = buildSSAFuncName ⟨some pkgPath, n, recv, oe, fs⟩)
    ∧ (∀ (pkgPath tn mn : String) (oe : Option Bool) (fs : String) (isPtr : Bool),
      collectTypesMethodName pkgPath tn mn
        = buildSSAFuncName ⟨some pkgPath, mn,
            some (if isPtr then GoType.ptr (GoType.named tn) else GoType.named tn), oe, fs⟩)
    ∧ (∀ (m : List (String × FuncNode)) (k : String) (v : FuncNode),
      keysNodup m → keysNodup (insertA m k v)) := by
  refine ⟨?_, ?_, fun m k v h => keysNodup_insertA m k v h⟩
  · intro pkgPath n recv oe fs
    cases recv with
    | none => rfl
    | some rt =>
      cases rt with
      | named rn => rfl
      | ptr e => cases e <;> rfl
      | other => rfl
  · intro pkgPath tn mn oe fs isPtr
    cases isPtr <;> rfl

/-- Witness for C2 at concrete inputs. -/
theorem c2_witness :
    keysNodup [("p.T.M", (⟨"M", "p.T.M", "p", "a.go", 3, true, "T", true⟩ : FuncNode))]
    ∧ keysNodup (insertA [("p.T.M", (⟨"M", "p.T.M", "p", "a.go", 3, true, "T", true⟩ : FuncNode))]
        "p.T.M" (⟨"M", "p.T.M", "p", "", 0, true, "", false⟩ : FuncNode)) := by
  refine ⟨by simp [keysNodup], ?_⟩
  exact c2_claim.2.2 _ "p.T.M" _ (by simp [keysNodup])

/-! ## Claim C9 -/

/-- Claim C9: when the Neo4j password flag is empty, the process exits with
a non-zero status before any analysis: packages are never loaded, none of
the three collection stages runs, and no sink write is performed. -/
theorem c9_claim (cfg : CLIConfig) (env : ExternalEnv) (h : cfg.neo4jPass = "") :
    (mainRun cfg env).exitCode = 1
    ∧ (mainRun cfg env).packagesLoadAttempted = false
    ∧ (mainRun cfg env).typesCollected = false
    ∧ (mainRun cfg env).callGraphCollected = false
    ∧ (mainRun cfg env).implementsCollected = false
    ∧ (mainRun cfg env).sinkWrites = 0 := by
  simp [mainRun, h, deadTrace]

/-- Witness for C9 at a concrete configuration. -/
theorem c9_witness :
    ((⟨"bolt://localhost:7687", "neo4j", "", false, "."⟩ : CLIConfig).neo4jPass = "")
    ∧ (mainRun ⟨"bolt://localhost:7687", "neo4j", "", false, "."⟩
        ⟨true, true, true, true, true, true, true, true, true, true, true, true⟩).exitCode = 1 := by
  refine ⟨rfl, ?_⟩
  exact (c9_claim _ _ rfl).1

/-! ## Claim C10 -/

theorem lookupA_guard_insert (m : List (String × FuncNode)) (k : String) (v : FuncNode)
    (h : lookupA m k = some v) (name : String) (c : Bool) (node : FuncNode) :
    lookupA (if (lookupA m name).isNone && c then insertA m name node else m) k = some v := by
  cases hb : ((lookupA m name).isNone && c) with
  | false => simp [hb, h]
  | true =>
    have hnone : lookupA m name = none := by
      have h1 := (Bool.and_eq_true _ _).mp hb
      exact Option.isNone_iff_eq_none.mp h1.1
    have hne : name ≠ k := by
      intro he
      rw [he, h] at hnone
      cases hnone
    simp only [hb, if_true]
    rw [lookupA_insertA_ne m k name node hne]
    exact h

/-- Claim C10: the call-graph pass never modifies a FuncNode already in the
Funcs map — every key bound before CollectCallGraph runs is bound to the
identical record afterwards; the pass only inserts at absent keys. -/
theorem c10_claim (rootModule : String) (st : CGState) (edges : List CGEdge)
    (k : String) (v : FuncNode) (h : lookupA st.funcs k = some v) :
    lookupA (CollectCallGraph rootModule st edges).funcs k = some v := by
  induction edges generalizing st with
  | nil => exact h
  | cons e es ih =>
    apply ih
    unfold processEdge
    cases hc : e.caller.pkg with
    | none => exact h
    | some callerPkg =>
      cases hd : e.callee.pkg with
      | none => exact h
      | some calleePkg =>
        cases hskip : (!isProjectPackage rootModule callerPkg
            && !isProjectPackage rootModule calleePkg) with
        | true => simpa [hskip] using h
        | false =>
          simp only [hskip, Bool.false_eq_true, if_false, apply_ite CGState.funcs]
          apply lookupA_guard_insert
          apply lookupA_guard_insert
          exact h

/-- Witness for C10 at a concrete pre-existing entry and edge list. -/
theorem c10_witness :
    lookupA [("m.f", (⟨"f", "m.f", "m", "a.go", 5, false, "", false⟩ : FuncNode))] "m.f"
      = some (⟨"f", "m.f", "m", "a.go", 5, false, "", false⟩ : FuncNode)
    ∧ lookupA (CollectCallGraph "m"
        ⟨[("m.f", (⟨"f", "m.f", "m", "a.go", 5, false, "", false⟩ : FuncNode))], []⟩
        [⟨⟨some "m", "f", none, some false, ""⟩, ⟨some "m", "g", none, some false, ""⟩,
          some ⟨"a.go", 9, false, 1⟩⟩]).funcs "m.f"
      = some (⟨"f", "m.f", "m", "a.go", 5, false, "", false⟩ : FuncNode) := by
  refine ⟨by decide, ?_⟩
  exact c10_claim "m" _ _ "m.f" _ (by decide)

/-! ## Claim C1 -/

/-- The spec's in-project test, stated from the spec's words: an exact
path-prefix match — the package path equals the module path or extends it
at a path-component boundary (immediately followed by a slash). -/
def boundaryMatch (rootModule pkgPath : String) : Bool :=
  (pkgPath == rootModule) || isPrefixL (rootModule.data ++ ['/']) pkgPath.data

theorem isPrefixL_self_append (a b : List Char) : isPrefixL a (a ++ b) = true := by
  induction a with
  | nil => rfl
  | cons x xs ih => simp [isPrefixL, ih]

theorem isPrefixL_of_append (a b c : List Char) (h : isPrefixL (a ++ b) c = true) :
    isPrefixL a c = true := by
  induction a generalizing c with
  | nil => rfl
  | cons x xs ih =>
    cases c with
    | nil => simp [isPrefixL] at h
    | cons y ys =>
      simp only [List.cons_append, isPrefixL, Bool.and_eq_true, decide_eq_true_eq] at h ⊢
      exact ⟨h.1, ih ys h.2⟩

/-- Claim C1 counterexample: the module path "foo" classifies the package
path "foobar" as in-project although "foobar" does not extend "foo" at a
path-component boundary. -/
theorem c1_counterexample :
    isProjectPackage "foo" "foobar" = true ∧ boundaryMatch "foo" "foobar" = false := by
  decide

/-- Claim C1 (amended): the in-project test is a plain string-prefix test:
every package path that equals the module path or extends it at a
path-component boundary is classified in-project, but so is a package path
that merely extends the module name without a separator ("foobar" under
module "foo"); a package literally named "foo" is still never classified as
in-project under module "foobar". -/
theorem c1_claim :
    (∀ m p : String, boundaryMatch m p = true → isProjectPackage m p = true)
    ∧ isProjectPackage "foo" "foobar" = true
    ∧ isProjectPackage "foobar" "foo" = false := by
  refine ⟨?_, by decide, by decide⟩
  intro m p h
  unfold boundaryMatch at h
  rw [Bool.or_eq_true] at h
  rcases h with h1 | h2
  · have he : p = m := eq_of_beq h1
    subst he
    unfold isProjectPackage
    have := isPrefixL_self_append p.data []
    simpa using this
  · exact isPrefixL_of_append m.data ['/'] p.data h2

/-- Witness for C1 (amended) at concrete inputs. -/
theorem c1_witness :
    boundaryMatch "a" "a/b" = true ∧ isProjectPackage "a" "a/b" = true := by
  refine ⟨by decide, ?_⟩
  exact c1_claim.1 "a" "a/b" (by decide)

/-! ## Claim C8 -/

/-- Modelled from the spec: a call-site path is project-relative when it is
not an absolute filesystem path (it does not start with a slash). -/
def isProjectRelativeSite (s : String) : Bool :=
  match s.data with
  | '/' :: _ => false
  | _ => true

theorem idxOf_append_self (root rest : List Char) : idxOf (root ++ rest) root = some 0 := by
  unfold idxOf
  cases hc : root ++ rest with
  | nil =>
    have hr : root = [] := by
      cases root with
      | nil => rfl
      | cons x xs => simp at hc
    subst hr
    simp [idxOfAux, isPrefixL]
  | cons h t =>
    have hp : isPrefixL root (h :: t) = true := by
      rw [← hc]
      exact isPrefixL_self_append root rest
    simp [idxOfAux, hp]

theorem relPath_append_strip (root rel : String) :
    relPath root (root ++ "/" ++ rel) = rel := by
  show String.mk (relPathL root.data (root ++ "/" ++ rel).data) = rel
  have hdata : (root ++ "/" ++ rel).data = root.data ++ ('/' :: rel.data) := by
    rw [String.data_append, String.data_append, List.append_assoc]
    rfl
  rw [hdata]
  unfold relPathL
  rw [idxOf_append_self root.data ('/' :: rel.data)]
  simp only [Nat.zero_add]
  rw [List.drop_left]
  simp only [if_pos rfl, if_true]

/-- Claim C8 counterexample: with module "example.com/proj" loaded from a
directory whose absolute file paths do not contain the module path (the
standard Go-modules layout), an emitted call edge carries the absolute
path "/home/u/app/main.go:3" as its site, which is not project-relative. -/
theorem c8_counterexample :
    (processEdge "example.com/proj" ⟨[], []⟩
      ⟨⟨some "example.com/proj", "main", none, some false, ""⟩,
       ⟨some "example.com/proj", "run", none, some false, ""⟩,
       some ⟨"/home/u/app/main.go", 3, false, 7⟩⟩).calls
      = [⟨"example.com/proj.main", "example.com/proj.run", false, "/home/u/app/main.go:3"⟩]
    ∧ isProjectRelativeSite "/home/u/app/main.go:3" = false := by
  constructor
  · rfl
  · rfl

/-- Claim C8 (amended): for every emitted CallEdge the is_dynamic flag is
true exactly when the recorded call site is an invoke-mode (interface
dispatched) call, and the site string is relPath(filename) ++ ":" ++ line —
which is the project-relative path exactly in layouts where the absolute
filename contains the module path (for a filename of the form
module ++ "/" ++ rel the site is rel ++ ":" ++ line), and is the unchanged
filename otherwise. -/
theorem c8_claim (rootModule : String) (st : CGState) (e : CGEdge)
    (callerPkg calleePkg : String) (s : SiteInfo)
    (hc : e.caller.pkg = some callerPkg) (hd : e.callee.pkg = some calleePkg)
    (hemit : (!isProjectPackage rootModule callerPkg
        && !isProjectPackage rootModule calleePkg) = false)
    (hs : e.site = some s) :
    (processEdge rootModule st e).calls
      = st.calls ++ [⟨buildSSAFuncName e.caller, buildSSAFuncName e.callee, s.isInvoke,
          relPath rootModule s.filename ++ ":" ++ toString s.line⟩]
    ∧ (∀ rel : String, relPath rootModule (rootModule ++ "/" ++ rel) = rel) := by
  refine ⟨?_, fun rel => relPath_append_strip rootModule rel⟩
  unfold processEdge
  rw [hc, hd]
  simp only [hemit, Bool.false_eq_true, if_false, hs, apply_ite CGState.calls]
  split <;> split <;> rfl

/-- Witness for C8 (amended) at a concrete edge. -/
theorem c8_witness :
    (processEdge "m" ⟨[], []⟩
      ⟨⟨some "m", "f", none, some false, ""⟩, ⟨some "m", "g", none, some false, ""⟩,
       some ⟨"m/a.go", 4, true, 2⟩⟩).calls
      = [⟨"m.f", "m.g", true, relPath "m" "m/a.go" ++ ":" ++ toString 4⟩]
    ∧ relPath "m" ("m" ++ "/" ++ "a.go") = "a.go" := by
  have h := c8_claim "m" ⟨[], []⟩
    ⟨⟨some "m", "f", none, some false, ""⟩, ⟨some "m", "g", none, some false, ""⟩,
     some ⟨"m/a.go", 4, true, 2⟩⟩ "m" "m" ⟨"m/a.go", 4, true, 2⟩ rfl rfl (by decide) rfl
  exact ⟨h.1, h.2 "a.go"⟩

/-! ## Claim C4 -/

/-- Claim C4 counterexample: an emitted edge from project function m.f to
the non-project function fmt.Println leaves fmt.Println unregistered in the
Funcs map, although it is a newly discovered endpoint of an emitted edge. -/
theorem c4_counterexample :
    (processEdge "m" ⟨[], []⟩
      ⟨⟨some "m", "f", none, some false, ""⟩, ⟨some "fmt", "Println", none, some true, ""⟩,
       some ⟨"x.go", 2, false, 0⟩⟩).calls
      = [⟨"m.f", "fmt.Println", false, "x.go:2"⟩]
    ∧ lookupA (processEdge "m" ⟨[], []⟩
      ⟨⟨some "m", "f", none, some false, ""⟩, ⟨some "fmt", "Println", none, some true, ""⟩,
       some ⟨"x.go", 2, false, 0⟩⟩).funcs "fmt.Println" = none := by
  exact ⟨rfl, rfl⟩

/-- Claim C4 (amended): every in-project endpoint of an emitted edge whose
key is not yet in the Funcs map is registered as a minimal FuncNode with
name, key, package and exported flag but empty file and zero line;
non-project endpoints are referenced by the edge but never registered. -/
theorem c4_claim (rootModule : String) (st : CGState) (e : CGEdge)
    (callerPkg calleePkg : String)
    (hc : e.caller.pkg = some callerPkg) (hd : e.callee.pkg = some calleePkg)
    (hemit : (!isProjectPackage rootModule callerPkg
        && !isProjectPackage rootModule calleePkg) = false) :
    (isProjectPackage rootModule callerPkg = true →
      lookupA st.funcs (buildSSAFuncName e.caller) = none →
      lookupA (processEdge rootModule st e).funcs (buildSSAFuncName e.caller)
        = some ⟨e.caller.fname, buildSSAFuncName e.caller, callerPkg, "", 0,
            e.caller.objExported.getD false, "", false⟩)
    ∧ (isProjectPackage rootModule calleePkg = true →
      lookupA st.funcs (buildSSAFuncName e.callee) = none →
      buildSSAFuncName e.caller ≠ buildSSAFuncName e.callee →
      lookupA (processEdge rootModule st e).funcs (buildSSAFuncName e.callee)
        = some ⟨e.callee.fname, buildSSAFuncName e.callee, calleePkg, "", 0,
            e.callee.objExported.getD false, "", false⟩) := by
  unfold processEdge
  rw [hc, hd]
  simp only [hemit, Bool.false_eq_true, if_false, apply_ite CGState.funcs]
  constructor
  · intro hproj hnone
    have hg1 : ((lookupA st.funcs (buildSSAFuncName e.caller)).isNone
        && isProjectPackage rootModule callerPkg) = true := by
      rw [hnone, hproj]; rfl
    rw [if_pos hg1]
    exact lookupA_guard_insert _ _ _ (lookupA_insertA_self st.funcs _ _) _ _ _
  · intro hproj hnone hne
    cases hg1 : ((lookupA st.funcs (buildSSAFuncName e.caller)).isNone
        && isProjectPackage rootModule callerPkg) with
    | true =>
      simp only [eq_self_iff_true, if_true]
      have h2 : lookupA (insertA st.funcs (buildSSAFuncName e.caller)
          (⟨e.caller.fname, buildSSAFuncName e.caller, callerPkg, "", 0,
            e.caller.objExported.getD false, "", false⟩ : FuncNode))
          (buildSSAFuncName e.callee) = none := by
        rw [lookupA_insertA_ne _ _ _ _ hne]
        exact hnone
      have hg2 : ((lookupA (insertA st.funcs (buildSSAFuncName e.caller)
          (⟨e.caller.fname, buildSSAFuncName e.caller, callerPkg, "", 0,
            e.caller.objExported.getD false, "", false⟩ : FuncNode))
          (buildSSAFuncName e.callee)).isNone
          && isProjectPackage rootModule calleePkg) = true := by
        rw [h2, hproj]; rfl
      rw [if_pos hg2]
      exact lookupA_insertA_self _ _ _
    | false =>
      simp only [Bool.false_eq_true, if_false]
      have hg2 : ((lookupA st.funcs (buildSSAFuncName e.callee)).isNone
          && isProjectPackage rootModule calleePkg) = true := by
        rw [hnone, hproj]; rfl
      rw [if_pos hg2]
      exact lookupA_insertA_self _ _ _

/-- Witness for C4 (amended) at a concrete edge with two fresh project
endpoints. -/
theorem c4_witness :
    lookupA (processEdge "m" ⟨[], []⟩
      ⟨⟨some "m", "f", none, some false, ""⟩, ⟨some "m", "g", none, some true, ""⟩,
       some ⟨"x.go", 2, false, 0⟩⟩).funcs "m.g"
      = some (⟨"g", "m.g", "m", "", 0, true, "", false⟩ : FuncNode) := by
  have h := (c4_claim "m" ⟨[], []⟩
    ⟨⟨some "m", "f", none, some false, ""⟩, ⟨some "m", "g", none, some true, ""⟩,
     some ⟨"x.go", 2, false, 0⟩⟩ "m" "m" rfl rfl (by decide)).2
  exact h (by decide) (by decide) (by decide)

/-! ## Implements-loop lemmas (shared by several claims) -/

/-- The seen-set key built for a (concrete, interface) pair. -/
def implEdgeKey (ci : ConcreteEntry × IfaceEntry) : String :=
  ci.1.key ++ "->" ++ ci.2.key

/-- The satisfaction test of the double loop: T implements I or *T does. -/
def implSat (ci : ConcreteEntry × IfaceEntry) : Bool :=
  typesImplements ci.1.valueMethods ci.2.methods
    || typesImplements ci.1.ptrMethods ci.2.methods

/-- The edge emitted for a satisfying pair. -/
def mkImplEdge (ci : ConcreteEntry × IfaceEntry) : ImplementsEdge :=
  ⟨ci.1.key, ci.2.key⟩

/-- All (concrete, interface) pairs the double loop visits, in order. -/
def allImplPairs (rootModule : String) (pkgs : List PkgInfo) :
    List (ConcreteEntry × IfaceEntry) :=
  (gatherConcretes rootModule pkgs).flatMap
    (fun c => (gatherIfaces rootModule pkgs).map (fun i => (c, i)))

theorem implPairStep_not_seen_sat (st : ImplState) (p : ConcreteEntry × IfaceEntry)
    (hseen : st.seen.contains (implEdgeKey p) = false) (hsat : implSat p = true) :
    implPairStep st p = ⟨st.edges ++ [mkImplEdge p], st.seen ++ [implEdgeKey p]⟩ := by
  unfold implSat at hsat
  unfold implPairStep
  unfold implEdgeKey at hseen
  have hseen' : p.1.key ++ "->" ++ p.2.key ∉ st.seen := by simpa using hseen
  cases ha : typesImplements p.1.valueMethods p.2.methods with
  | true => simp [hseen', ha, mkImplEdge, implEdgeKey]
  | false =>
    have hb : typesImplements p.1.ptrMethods p.2.methods = true := by
      rw [ha] at hsat
      simpa using hsat
    simp [hseen', ha, hb, mkImplEdge, implEdgeKey]

theorem implPairStep_not_seen_unsat (st : ImplState) (p : ConcreteEntry × IfaceEntry)
    (hseen : st.seen.contains (implEdgeKey p) = false) (hsat : implSat p = false) :
    implPairStep st p = st := by
  unfold implSat at hsat
  rw [Bool.or_eq_false_iff] at hsat
  unfold implPairStep
  unfold implEdgeKey at hseen
  have hseen' : p.1.key ++ "->" ++ p.2.key ∉ st.seen := by simpa using hseen
  simp [hseen', hsat.1, hsat.2]

theorem implPairStep_edges_cases (st : ImplState) (p : ConcreteEntry × IfaceEntry) :
    (implPairStep st p).edges = st.edges
    ∨ (implPairStep st p).edges = st.edges ++ [mkImplEdge p] := by
  unfold implPairStep mkImplEdge
  by_cases h1 : p.1.key ++ "->" ++ p.2.key ∈ st.seen
  · left; simp [h1]
  · by_cases h2 : typesImplements p.1.valueMethods p.2.methods = true
    · right; simp [h1, h2]
    · by_cases h3 : typesImplements p.1.ptrMethods p.2.methods = true
      · right; simp [h1, h2, h3]
      · left; simp [h1, h2, h3]

theorem foldl_implPairStep_edges (ps : List (ConcreteEntry × IfaceEntry)) (st : ImplState)
    (hdisj : ∀ p ∈ ps, st.seen.contains (implEdgeKey p) = false)
    (hnd : (ps.map implEdgeKey).Nodup) :
    (ps.foldl implPairStep st).edges = st.edges ++ (ps.filter implSat).map mkImplEdge := by
  induction ps generalizing st with
  | nil => simp
  | cons p t ih =>
    have hp := hdisj p (List.mem_cons_self p t)
    have hndt : (t.map implEdgeKey).Nodup := by
      have := hnd
      simp only [List.map_cons, List.nodup_cons] at this
      exact this.2
    have hknot : implEdgeKey p ∉ t.map implEdgeKey := by
      have := hnd
      simp only [List.map_cons, List.nodup_cons] at this
      exact this.1
    cases hsat : implSat p with
    | true =>
      rw [List.foldl_cons, implPairStep_not_seen_sat st p hp hsat]
      rw [ih _ ?_ hndt]
      · simp [List.filter_cons, hsat]
      · intro q hq
        have h1 : implEdgeKey q ∉ st.seen := by
          simpa using hdisj q (List.mem_cons_of_mem p hq)
        have h2 : implEdgeKey q ≠ implEdgeKey p := by
          intro he
          exact hknot (he ▸ List.mem_map_of_mem implEdgeKey hq)
        simp [h1, h2]
    | false =>
      rw [List.foldl_cons, implPairStep_not_seen_unsat st p hp hsat]
      rw [ih _ (fun q hq => hdisj q (List.mem_cons_of_mem p hq)) hndt]
      simp [List.filter_cons, hsat]

theorem nested_foldl_eq_pairs (cs : List ConcreteEntry) (ifaces : List IfaceEntry)
    (st : ImplState) :
    cs.foldl (fun s c => ifaces.foldl (fun s2 i => implPairStep s2 (c, i)) s) st
      = (cs.flatMap (fun c => ifaces.map (fun i => (c, i)))).foldl implPairStep st := by
  induction cs generalizing st with
  | nil => rfl
  | cons c cs ih =>
    rw [List.foldl_cons, List.flatMap_cons, List.foldl_append, List.foldl_map]
    exact ih _

theorem CollectImplementsFromPackages_eq_filter (rootModule : String) (pkgs : List PkgInfo)
    (hnd : ((allImplPairs rootModule pkgs).map implEdgeKey).Nodup) :
    CollectImplementsFromPackages rootModule pkgs
      = ((allImplPairs rootModule pkgs).filter implSat).map mkImplEdge := by
  unfold CollectImplementsFromPackages
  show (List.foldl
      (fun st c => List.foldl (fun st2 i => implPairStep st2 (c, i)) st
        (gatherIfaces rootModule pkgs))
      ⟨[], []⟩ (gatherConcretes rootModule pkgs)).edges = _
  rw [nested_foldl_eq_pairs]
  show (List.foldl implPairStep ⟨[], []⟩ (allImplPairs rootModule pkgs)).edges = _
  rw [foldl_implPairStep_edges _ _ (fun p _ => by simp [List.contains_nil]) hnd]
  simp

theorem implEdgeKey_eq_of_mkImplEdge_eq {p q : ConcreteEntry × IfaceEntry}
    (h : mkImplEdge p = mkImplEdge q) : implEdgeKey p = implEdgeKey q := by
  unfold mkImplEdge at h
  rw [ImplementsEdge.mk.injEq] at h
  unfold implEdgeKey
  rw [h.1, h.2]

theorem nodup_map_mkImplEdge (l : List (ConcreteEntry × IfaceEntry))
    (hnd : (l.map implEdgeKey).Nodup) : (l.map mkImplEdge).Nodup := by
  induction l with
  | nil => simp
  | cons p t ih =>
    simp only [List.map_cons, List.nodup_cons] at hnd ⊢
    refine ⟨?_, ih hnd.2⟩
    intro hmem
    rcases List.mem_map.mp hmem with ⟨q, hq, he⟩
    exact hnd.1 (implEdgeKey_eq_of_mkImplEdge_eq he ▸ List.mem_map_of_mem implEdgeKey hq)

theorem count_map_mkImplEdge_one (l : List (ConcreteEntry × IfaceEntry))
    (hnd : (l.map implEdgeKey).Nodup) (x : ConcreteEntry × IfaceEntry) (hx : x ∈ l) :
    (l.map mkImplEdge).count (mkImplEdge x) = 1 := by
  induction l with
  | nil => cases hx
  | cons p t ih =>
    simp only [List.map_cons, List.nodup_cons] at hnd
    rcases List.mem_cons.mp hx with he | hm
    · subst he
      rw [List.map_cons, List.count_cons]
      have hzero : (t.map mkImplEdge).count (mkImplEdge x) = 0 := by
        rw [List.count_eq_zero]
        intro hmem
        rcases List.mem_map.mp hmem with ⟨q, hq, heq⟩
        exact hnd.1 (implEdgeKey_eq_of_mkImplEdge_eq heq ▸ List.mem_map_of_mem implEdgeKey hq)
      rw [hzero]
      simp
    · rw [List.map_cons, List.count_cons, ih hnd.2 hm]
      have hne : ¬ mkImplEdge p = mkImplEdge x := by
        intro he
        exact hnd.1 (implEdgeKey_eq_of_mkImplEdge_eq he.symm ▸ List.mem_map_of_mem implEdgeKey hm)
      simp [hne]

theorem mem_foldl_implPairStep (ps : List (ConcreteEntry × IfaceEntry)) (st : ImplState)
    (e : ImplementsEdge) (h : e ∈ (ps.foldl implPairStep st).edges) :
    e ∈ st.edges ∨ ∃ p ∈ ps, e = mkImplEdge p := by
  induction ps generalizing st with
  | nil => left; exact h
  | cons p t ih =>
    rw [List.foldl_cons] at h
    rcases ih _ h with h1 | ⟨q, hq, he⟩
    · rcases implPairStep_edges_cases st p with h2 | h2
      · rw [h2] at h1
        left
        exact h1
      · rw [h2] at h1
        rcases List.mem_append.mp h1 with h3 | h3
        · left; exact h3
        · right; exact ⟨p, List.mem_cons_self p t, by simpa using h3⟩
    · right; exact ⟨q, List.mem_cons_of_mem p hq, he⟩

theorem ifaceEntryOf_eq_some (pkgPath : String) (t : TypeDef) (i : IfaceEntry)
    (h : ifaceEntryOf pkgPath t = some i) :
    t.u = Underlying.ifaceU i.methods ∧ 0 < i.methods.length
      ∧ i.key = pkgPath ++ "." ++ t.name := by
  obtain ⟨tn, tu⟩ := t
  cases tu with
  | structU a b => simp [ifaceEntryOf] at h
  | otherU => simp [ifaceEntryOf] at h
  | ifaceU ms =>
    by_cases hlen : 0 < ms.length
    · have hi : i = ⟨pkgPath ++ "." ++ tn, ms, tn, pkgPath⟩ := by
        simp only [ifaceEntryOf, if_pos hlen] at h
        injection h with h0
        exact h0.symm
      subst hi
      exact ⟨rfl, hlen, rfl⟩
    · simp [ifaceEntryOf, hlen] at h

theorem mem_gatherIfaces_aux (rootModule : String) (ps : List PkgInfo) (acc : List IfaceEntry)
    (i : IfaceEntry)
    (h : i ∈ ps.foldl (fun acc p =>
      if isProjectPackage rootModule p.pkgPath then
        acc ++ p.typeDefs.filterMap (ifaceEntryOf p.pkgPath)
      else acc) acc) :
    i ∈ acc ∨ ∃ p ∈ ps, isProjectPackage rootModule p.pkgPath = true
      ∧ ∃ t ∈ p.typeDefs, t.u = Underlying.ifaceU i.methods
        ∧ 0 < i.methods.length ∧ i.key = p.pkgPath ++ "." ++ t.name := by
  induction ps generalizing acc with
  | nil => left; exact h
  | cons p ps ih =>
    rw [List.foldl_cons] at h
    rcases ih _ h with h1 | ⟨q, hq, hrest⟩
    · by_cases hproj : isProjectPackage rootModule p.pkgPath = true
      · rw [if_pos hproj] at h1
        rcases List.mem_append.mp h1 with h2 | h2
        · left; exact h2
        · right
          rcases List.mem_filterMap.mp h2 with ⟨t, ht, hf⟩
          exact ⟨p, List.mem_cons_self p ps, hproj, t, ht,
            ifaceEntryOf_eq_some p.pkgPath t i hf⟩
      · rw [if_neg hproj] at h1
        left
        exact h1
    · right; exact ⟨q, List.mem_cons_of_mem p hq, hrest⟩

theorem keysNodup_guard (m : List (String × FuncNode)) (h : keysNodup m)
    (name : String) (c : Bool) (node : FuncNode) :
    keysNodup (if (lookupA m name).isNone && c then insertA m name node else m) := by
  cases hb : ((lookupA m name).isNone && c) with
  | false => simpa [hb] using h
  | true =>
    simp only [hb, if_true]
    exact keysNodup_insertA m name node h

theorem keysNodup_processEdge (rootModule : String) (st : CGState) (e : CGEdge)
    (h : keysNodup st.funcs) : keysNodup (processEdge rootModule st e).funcs := by
  unfold processEdge
  cases hc : e.caller.pkg with
  | none => exact h
  | some callerPkg =>
    cases hd : e.callee.pkg with
    | none => exact h
    | some calleePkg =>
      cases hskip : (!isProjectPackage rootModule callerPkg
          && !isProjectPackage rootModule calleePkg) with
      | true => simpa [hskip] using h
      | false =>
        simp only [hskip, Bool.false_eq_true, if_false, apply_ite CGState.funcs]
        apply keysNodup_guard
        apply keysNodup_guard
        exact h

/-! ## Claim C3 -/

/-- Claim C3 counterexample: two distinct call instructions on the same
source line (differing only in column) produce two CallEdge records with
identical (caller, callee, site) triples — the Calls slice is a plain
append with no deduplication. -/
theorem c3_counterexample :
    (CollectCallGraph "m" ⟨[], []⟩
      [⟨⟨some "m", "f", none, some false, ""⟩, ⟨some "m", "g", none, some false, ""⟩,
        some ⟨"a.go", 3, false, 5⟩⟩,
       ⟨⟨some "m", "f", none, some false, ""⟩, ⟨some "m", "g", none, some false, ""⟩,
        some ⟨"a.go", 3, false, 12⟩⟩]).calls
      = [⟨"m.f", "m.g", false, "a.go:3"⟩, ⟨"m.f", "m.g", false, "a.go:3"⟩] := by
  rfl

/-- Claim C3 (amended): the map-backed collections are deduplicated by key
(shown for the Funcs map threaded through the call-graph pass; the package,
struct and interface collections are Go maps keyed the same way) and the
implements list contains no duplicate (struct, interface) pair; the calls
collection is a plain append and may contain records with equal
(caller, callee, site) triples. -/
theorem c3_claim :
    (∀ (rootModule : String) (st : CGState) (edges : List CGEdge),
      keysNodup st.funcs → keysNodup (CollectCallGraph rootModule st edges).funcs)
    ∧ (∀ (rootModule : String) (pkgs : List PkgInfo),
      ((allImplPairs rootModule pkgs).map implEdgeKey).Nodup →
      (CollectImplementsFromPackages rootModule pkgs).Nodup) := by
  constructor
  · intro rootModule st edges h
    induction edges generalizing st with
    | nil => exact h
    | cons e es ih => exact ih _ (keysNodup_processEdge rootModule st e h)
  · intro rootModule pkgs hnd
    rw [CollectImplementsFromPackages_eq_filter rootModule pkgs hnd]
    apply nodup_map_mkImplEdge
    exact ((List.filter_sublist _).map implEdgeKey).nodup hnd

/-- Witness for C3 (amended) at concrete inputs. -/
theorem c3_witness :
    keysNodup (CollectCallGraph "m" ⟨[], []⟩
      [⟨⟨some "m", "f", none, some false, ""⟩, ⟨some "m", "g", none, some false, ""⟩,
        some ⟨"a.go", 3, false, 5⟩⟩]).funcs
    ∧ (CollectImplementsFromPackages "m"
        [⟨"m/app", [⟨"S", Underlying.structU ["Handle"] ["Handle"]⟩,
          ⟨"H", Underlying.ifaceU ["Handle"]⟩]⟩]).Nodup := by
  constructor
  · exact c3_claim.1 "m" ⟨[], []⟩ _ (by unfold keysNodup; decide)
  · exact c3_claim.2 "m" _ (by decide)

/-! ## Claim C5 -/

/-- Claim C5: for every project (concrete struct, non-empty interface) pair
visited by the resolver (with the visited pairs carrying pairwise distinct
seen-keys, as distinct type declarations do), the output contains the
ImplementsEdge for that pair exactly once when the struct's value method
set or the pointer method set covers the interface, and not at all
otherwise — never two edges for one pair. -/
theorem c5_claim (rootModule : String) (pkgs : List PkgInfo)
    (hnd : ((allImplPairs rootModule pkgs).map implEdgeKey).Nodup)
    (c : ConcreteEntry) (hc : c ∈ gatherConcretes rootModule pkgs)
    (i : IfaceEntry) (hi : i ∈ gatherIfaces rootModule pkgs) :
    (CollectImplementsFromPackages rootModule pkgs).count ⟨c.key, i.key⟩
      = if implSat (c, i) then 1 else 0 := by
  rw [CollectImplementsFromPackages_eq_filter rootModule pkgs hnd]
  have hpair : (c, i) ∈ allImplPairs rootModule pkgs := by
    unfold allImplPairs
    exact List.mem_flatMap.mpr ⟨c, hc, List.mem_map_of_mem _ hi⟩
  have hndf : (((allImplPairs rootModule pkgs).filter implSat).map implEdgeKey).Nodup :=
    ((List.filter_sublist _).map implEdgeKey).nodup hnd
  by_cases hsat : implSat (c, i) = true
  · rw [if_pos hsat]
    have hmem : (c, i) ∈ (allImplPairs rootModule pkgs).filter implSat :=
      List.mem_filter.mpr ⟨hpair, hsat⟩
    exact count_map_mkImplEdge_one _ hndf (c, i) hmem
  · rw [if_neg hsat]
    rw [List.count_eq_zero]
    intro hmem
    rcases List.mem_map.mp hmem with ⟨q, hq, heq⟩
    rcases List.mem_filter.mp hq with ⟨hq1, hq2⟩
    have hqe : q = (c, i) :=
      List.inj_on_of_nodup_map hnd hq1 hpair
        (implEdgeKey_eq_of_mkImplEdge_eq (show mkImplEdge q = mkImplEdge (c, i) from heq))
    rw [hqe] at hq2
    exact hsat hq2

/-- Witness for C5 at a concrete project: one struct satisfying one
interface yields exactly one edge. -/
theorem c5_witness :
    (CollectImplementsFromPackages "m"
      [⟨"m/app", [⟨"S", Underlying.structU [] ["Handle"]⟩,
        ⟨"H", Underlying.ifaceU ["Handle"]⟩]⟩]).count ⟨"m/app.S", "m/app.H"⟩ = 1 := by
  have h := c5_claim "m"
    [⟨"m/app", [⟨"S", Underlying.structU [] ["Handle"]⟩,
      ⟨"H", Underlying.ifaceU ["Handle"]⟩]⟩]
    (by decide)
    ⟨"m/app.S", [], ["Handle"], "S", "m/app"⟩ (by decide)
    ⟨"m/app.H", ["Handle"], "H", "m/app"⟩ (by decide)
  simpa using h

/-! ## Claim C6 -/

/-- Claim C6: every emitted ImplementsEdge targets an interface declared in
a visited package whose method count is strictly positive — an empty
interface is never the target of an ImplementsEdge. -/
theorem c6_claim (rootModule : String) (pkgs : List PkgInfo) (e : ImplementsEdge)
    (h : e ∈ CollectImplementsFromPackages rootModule pkgs) :
    ∃ p ∈ pkgs, ∃ t ∈ p.typeDefs, ∃ ms : List String,
      t.u = Underlying.ifaceU ms ∧ 0 < ms.length
      ∧ e.iface = p.pkgPath ++ "." ++ t.name := by
  have h2 : e ∈ (List.foldl implPairStep ⟨[], []⟩ (allImplPairs rootModule pkgs)).edges := by
    unfold allImplPairs
    rw [← nested_foldl_eq_pairs]
    exact h
  rcases mem_foldl_implPairStep _ _ _ h2 with h3 | ⟨q, hq, he⟩
  · cases h3
  · unfold allImplPairs at hq
    rcases List.mem_flatMap.mp hq with ⟨c, hc, hmap⟩
    rcases List.mem_map.mp hmap with ⟨i, hi, hqe⟩
    have hgi := mem_gatherIfaces_aux rootModule pkgs [] i
      (by unfold gatherIfaces at hi; exact hi)
    rcases hgi with h4 | ⟨p, hp, _, t, ht, hu, hlen, hkey⟩
    · cases h4
    · refine ⟨p, hp, t, ht, i.methods, hu, hlen, ?_⟩
      rw [he, ← hqe]
      exact hkey

/-- Witness for C6 at a concrete emitted edge. -/
theorem c6_witness :
    ((⟨"m/app.S", "m/app.H"⟩ : ImplementsEdge) ∈ CollectImplementsFromPackages "m"
      [⟨"m/app", [⟨"S", Underlying.structU ["Handle"] ["Handle"]⟩,
        ⟨"H", Underlying.ifaceU ["Handle"]⟩]⟩])
    ∧ ∃ p ∈ [(⟨"m/app", [⟨"S", Underlying.structU ["Handle"] ["Handle"]⟩,
        ⟨"H", Underlying.ifaceU ["Handle"]⟩]⟩ : PkgInfo)],
      ∃ t ∈ p.typeDefs, ∃ ms : List String,
        t.u = Underlying.ifaceU ms ∧ 0 < ms.length
        ∧ (⟨"m/app.S", "m/app.H"⟩ : ImplementsEdge).iface = p.pkgPath ++ "." ++ t.name := by
  refine ⟨by decide, ?_⟩
  exact c6_claim "m" _ _ (by decide)

/-! ## Claim C7: soundness of the modelled flow propagation -/

theorem mem_addType_of_mem (acc : List (Nat × String)) (nt p : Nat × String)
    (h : p ∈ acc) : p ∈ addType acc nt := by
  unfold addType
  by_cases hm : acc.contains nt = true
  · rw [if_pos hm]; exact h
  · rw [if_neg hm]; exact List.mem_append_left _ h

theorem mem_addType_self (acc : List (Nat × String)) (nt : Nat × String) :
    nt ∈ addType acc nt := by
  unfold addType
  by_cases hm : nt ∈ acc
  · rw [if_pos (by simp [hm])]; exact hm
  · rw [if_neg (by simp [hm])]
    exact List.mem_append_right _ (List.mem_singleton.mpr rfl)

theorem mem_foldl_addType_of_mem (ts : List String) (b : Nat) (acc : List (Nat × String))
    (p : Nat × String) (h : p ∈ acc) :
    p ∈ ts.foldl (fun acc2 t => addType acc2 (b, t)) acc := by
  induction ts generalizing acc with
  | nil => exact h
  | cons t ts ih =>
    rw [List.foldl_cons]
    exact ih _ (mem_addType_of_mem acc (b, t) p h)

theorem mem_foldl_addType_self (ts : List String) (b : Nat) (acc : List (Nat × String))
    (T : String) (h : T ∈ ts) :
    (b, T) ∈ ts.foldl (fun acc2 t => addType acc2 (b, t)) acc := by
  induction ts generalizing acc with
  | nil => cases h
  | cons t ts ih =>
    rw [List.foldl_cons]
    rcases List.mem_cons.mp h with h1 | h1
    · subst h1
      exact mem_foldl_addType_of_mem ts b _ (b, T) (mem_addType_self acc (b, T))
    · exact ih _ h1

theorem mem_propagateEdge_of_mem (asn acc : List (Nat × String)) (e : Nat × Nat)
    (p : Nat × String) (h : p ∈ acc) : p ∈ propagateEdge asn acc e :=
  mem_foldl_addType_of_mem _ _ _ _ h

theorem mem_propagateEdge_target (asn acc : List (Nat × String)) (a b : Nat) (T : String)
    (h : (a, T) ∈ asn) : (b, T) ∈ propagateEdge asn acc (a, b) := by
  unfold propagateEdge
  apply mem_foldl_addType_self
  unfold typesFrom
  exact List.mem_filterMap.mpr ⟨(a, T), h, by simp⟩

theorem mem_foldl_propagateEdge_of_mem (es : List (Nat × Nat)) (asn acc : List (Nat × String))
    (p : Nat × String) (h : p ∈ acc) : p ∈ es.foldl (propagateEdge asn) acc := by
  induction es generalizing acc with
  | nil => exact h
  | cons e es ih =>
    rw [List.foldl_cons]
    exact ih _ (mem_propagateEdge_of_mem asn acc e p h)

theorem mem_propagateStep_of_mem (g : FlowGraph) (asn : List (Nat × String))
    (p : Nat × String) (h : p ∈ asn) : p ∈ propagateStep g asn :=
  mem_foldl_propagateEdge_of_mem _ _ _ _ h

theorem mem_propagateStep_edge (g : FlowGraph) (asn : List (Nat × String)) (a b : Nat)
    (T : String) (he : (a, b) ∈ g.flowEdges) (h : (a, T) ∈ asn) :
    (b, T) ∈ propagateStep g asn := by
  unfold propagateStep
  suffices H : ∀ (es : List (Nat × Nat)) (acc : List (Nat × String)), (a, b) ∈ es →
      (b, T) ∈ es.foldl (propagateEdge asn) acc from H g.flowEdges asn he
  intro es
  induction es with
  | nil => intro acc h2; cases h2
  | cons e es ih =>
    intro acc h2
    rw [List.foldl_cons]
    rcases List.mem_cons.mp h2 with h3 | h3
    · subst h3
      exact mem_foldl_propagateEdge_of_mem es asn _ (b, T)
        (mem_propagateEdge_target asn acc a b T h)
    · exact ih _ h3

theorem mem_propagateN_of_origin (g : FlowGraph) (p : Nat × String) (k : Nat)
    (h : p ∈ g.origins) : p ∈ propagateN g k := by
  induction k with
  | zero => exact h
  | succ k ih => exact mem_propagateStep_of_mem g _ p ih

theorem flowsWithin_sound (g : FlowGraph) (T : String) :
    ∀ {k a b : Nat}, FlowsWithin g k a b → (a, T) ∈ g.origins →
      (b, T) ∈ propagateN g k := by
  intro k a b hf
  induction hf with
  | done k a =>
    intro ho
    exact mem_propagateN_of_origin g (a, T) k ho
  | snoc hflow hedge ih =>
    intro ho
    exact mem_propagateStep_edge g _ _ _ T hedge (ih ho)

/-- Claim C7: the modelled type-flow resolution is a sound
over-approximation — whenever a dynamic call's receiver node can be reached
(through the may-flow-to graph, within the propagation budget) by two
concrete types A and B that both provide the called method, the candidate
callee set contains both A's method and B's method. -/
theorem c7_claim (g : FlowGraph) (fuel r a b : Nat) (tA tB kA kB : String)
    (provides : List (String × String))
    (ha : (a, tA) ∈ g.origins) (hb : (b, tB) ∈ g.origins)
    (hfa : FlowsWithin g fuel a r) (hfb : FlowsWithin g fuel b r)
    (hpa : (tA, kA) ∈ provides) (hpb : (tB, kB) ∈ provides) :
    kA ∈ dynamicCallees g fuel r provides ∧ kB ∈ dynamicCallees g fuel r provides := by
  have hta : tA ∈ typesAt g fuel r := by
    unfold typesAt typesFrom
    exact List.mem_filterMap.mpr ⟨(r, tA), flowsWithin_sound g tA hfa ha, by simp⟩
  have htb : tB ∈ typesAt g fuel r := by
    unfold typesAt typesFrom
    exact List.mem_filterMap.mpr ⟨(r, tB), flowsWithin_sound g tB hfb hb, by simp⟩
  constructor
  · unfold dynamicCallees
    exact List.mem_filterMap.mpr ⟨(tA, kA), hpa, by simp [hta]⟩
  · unfold dynamicCallees
    exact List.mem_filterMap.mpr ⟨(tB, kB), hpb, by simp [htb]⟩

/-- Witness for C7: a Handler-style receiver node reached by both concrete
types resolves to both Handle methods. -/
theorem c7_witness :
    ((0, "A") ∈ (FlowGraph.mk [(0, 2), (1, 2)] [(0, "A"), (1, "B")]).origins)
    ∧ "p.A.Handle" ∈ dynamicCallees ⟨[(0, 2), (1, 2)], [(0, "A"), (1, "B")]⟩ 1 2
        [("A", "p.A.Handle"), ("B", "p.B.Handle")]
    ∧ "p.B.Handle" ∈ dynamicCallees ⟨[(0, 2), (1, 2)], [(0, "A"), (1, "B")]⟩ 1 2
        [("A", "p.A.Handle"), ("B", "p.B.Handle")] := by
  have h := c7_claim ⟨[(0, 2), (1, 2)], [(0, "A"), (1, "B")]⟩ 1 2 0 1 "A" "B"
    "p.A.Handle" "p.B.Handle" [("A", "p.A.Handle"), ("B", "p.B.Handle")]
    (by decide) (by decide)
    (FlowsWithin.snoc (FlowsWithin.done 0 0) (by decide))
    (FlowsWithin.snoc (FlowsWithin.done 0 1) (by decide))
    (by decide) (by decide)
  exact ⟨by decide, h.1, h.2⟩

end GoCallGraph
